import Mathlib

/-!
Shallow embedding of `cooltools/cli/eigs_trans.py`: the `eigs_trans` CLI command.

The command reads a cooler file, optionally parses and merges a reference track
onto the bin table of the cooler, optionally resolves and validates a view (region)
file, calls the trans eigendecomposition (`eigdecomp.eigs_trans`, an external
collaborator here), and writes an eigenvalue table, an eigenvector table and,
optionally, a bigWig file.

External collaborators (file parsing by `pandas.read_table`, header sniffing by
`sniff_for_header`, the cooler store, the numeric decomposition itself) are
modelled as inputs or as an abstract function argument; track values are opaque
to this command (it never computes with them), so they are modelled as `Int`.
-/

set_option autoImplicit false

/-- A row of the cooler bin table: `(chrom, start, end)`. -/
structure Bin where
  chrom : String
  start : Int
  «end» : Int
deriving DecidableEq

/-- A parsed reference-track row `(chrom, start, end, value)`; the value
(float64 in the source) is never computed with by the CLI, so it is opaque. -/
structure TrackRow where
  chrom : String
  start : Int
  «end» : Int
  value : Int
deriving DecidableEq

/-- The cooler store as the CLI sees it: `clr.chromsizes` and `clr.bins()`. -/
structure Cooler where
  chromsizes : List (String × Int)
  bins : List Bin
deriving DecidableEq

/-- A reference-track column specification, as produced by `TabularFilePath`
(`path::col` with `col` an integer index or a column name; the default is
index 3). -/
inductive Col where
  | byIndex (i : Nat)
  | byName (s : String)
deriving DecidableEq

/-- The reference-track file after the out-of-scope collaborators ran:
`names` is the header found by `sniff_for_header` (`none` when headerless),
`rows` are the rows parsed by `pd.read_table`. -/
structure TrackInput where
  names : Option (List String)
  rows : List TrackRow
deriving DecidableEq

/-- A view region `(chrom, start, end, name)`. -/
structure Region where
  chrom : String
  start : Int
  «end» : Int
  name : String
deriving DecidableEq

/-- Errors the command can raise: `click.BadParameter` from the track-column
resolution, and the validation error of `read_viewframe`. -/
inductive CliError where
  | badParameter (msg : String)
  | viewValidation (msg : String)
deriving DecidableEq

/-- The `bins` argument handed to `eigdecomp.eigs_trans`: either the bare
`(chrom, start, end)` bin table (no reference track), or the bin table merged
with the track column (`none` marking a NaN from an unmatched bin). -/
inductive EigsBins where
  | noTrack (bins : List Bin)
  | withTrack (rows : List (Bin × Option Int))
deriving DecidableEq

/-- The keyword arguments of the `eigdecomp.eigs_trans(...)` call at the end of
the command (lines 176-184 of the source). -/
structure EigsTransArgs where
  bins : EigsBins
  n_eigs : Int
  clr_weight_name : String
  partition : Option Unit
  phasing_track_col : Option String
  sort_metric : Option String
deriving DecidableEq

/-- A file written by the command: the `.lam.txt` eigenvalue table, the
`.vecs.tsv` eigenvector table, or the bigWig track with its `value_field`. -/
inductive OutFile (V T : Type) where
  | lam (path : String) (eigvals : V)
  | vecs (path : String) (table : T)
  | bigwig (path : String) (table : T) (value_field : String)
deriving DecidableEq

/-- The `(chrom, start, end)` key of a track row, the merge key of `pd.merge`. -/
def trackKey (t : TrackRow) : String × Int × Int :=
  (t.chrom, t.start, t.«end»)

/-- The `(chrom, start, end)` key of a bin. -/
def binKey (b : Bin) : String × Int × Int :=
  (b.chrom, b.start, b.«end»)

/-- `pd.merge(left=clr.bins()[:], right=track_df, how="left", on=["chrom",
"start", "end"])`: one output row per (bin, matching track row) pair in bin
order, and a single row with a missing value for a bin with no match. -/
def pd_merge_left (bins : List Bin) (track : List TrackRow) :
    List (Bin × Option Int) :=
  bins.flatMap fun b =>
    match track.filter (fun t => decide (trackKey t = binKey b)) with
    | [] => [(b, none)]
    | ms => ms.map fun t => (b, some t.value)

/-- The message of the `ValueError` constructed after the merge. -/
def mergeGrowthMsg : String :=
  "There is something in the track that could not be merged with cooler-bins"

/-- The row-count sanity check after the merge (lines 156-160): an error value
is produced when the merged table is longer than the bin table. In the source
the `ValueError` is constructed but never raised. -/
def track_merge_check (clr : Cooler) (merged : List (Bin × Option Int)) :
    Option String :=
  if merged.length > clr.bins.length then some mergeGrowthMsg else none

/-- Resolution of the reference-track column against the sniffed header
(lines 99-131): headerless files require an integer index (the column is then
named "ref"); with a header, an index is translated through the header and a
name must occur in it. -/
def resolve_track_name (names : Option (List String)) (col : Col) :
    Except CliError String :=
  match names with
  | none =>
    match col with
    | .byName s =>
      .error (.badParameter ("No header found. Cannot find " ++ s ++
        " column without a header."))
    | .byIndex _ => .ok "ref"
  | some ns =>
    match col with
    | .byIndex i =>
      match ns[i]? with
      | some s => .ok s
      | none =>
        .error (.badParameter ("Column #" ++ toString i ++
          " not compatible with header " ++ String.intercalate "," ns ++ "."))
    | .byName s =>
      if s ∈ ns then .ok s
      else
        .error (.badParameter ("Column " ++ s ++ " not found in header " ++
          String.intercalate "," ns))

/-- The reference-track branch of the command (lines 92-164): resolve the
column, merge the parsed track onto the bin table, run the (unraised)
row-count check, and produce the `bins` argument together with `track_name`.
With no track, the bare bin table is used and `track_name` is `None`. -/
def track_step (clr : Cooler) (reference_track : Option (TrackInput × Col)) :
    Except CliError (EigsBins × Option String) :=
  match reference_track with
  | some (tf, col) =>
    match resolve_track_name tf.names col with
    | .error e => .error e
    | .ok track_name =>
      let track := pd_merge_left clr.bins tf.rows
      -- the source constructs `ValueError(...)` from this check without
      -- raising it, so the result is discarded and execution continues
      let _check := track_merge_check clr track
      .ok (.withTrack track, some track_name)
  | none => .ok (.noTrack clr.bins, none)

/-- Modelled from the spec: `make_cooler_view` lives in `cooltools.lib.common`,
which is not part of this tree. Per the spec, with no region file the view is
one region per chromosome, named by the chromosome, spanning the full
chromosome length from the chromosome-size table. -/
def make_cooler_view (clr : Cooler) : List Region :=
  clr.chromsizes.map fun p => ⟨p.1, 0, p.2, p.1⟩

/-- The size recorded for a chromosome in the chromosome-size table of the cooler. -/
def chromSize (clr : Cooler) (c : String) : Option Int :=
  (clr.chromsizes.find? fun p => decide (p.1 = c)).map Prod.snd

/-- A region lies within the bounds of its chromosome. -/
def regionInBounds (clr : Cooler) (r : Region) : Bool :=
  match chromSize clr r.chrom with
  | none => false
  | some n => decide (0 ≤ r.start) && decide (r.start ≤ r.«end») &&
      decide (r.«end» ≤ n)

/-- Consecutive regions of one chromosome are sorted and non-overlapping:
each region ends no later than the next one starts. -/
def sortedNonOverlapping : List Region → Bool
  | [] => true
  | [_] => true
  | r :: r₂ :: rest =>
    decide (r.«end» ≤ r₂.start) && sortedNonOverlapping (r₂ :: rest)

/-- The per-chromosome sorted/non-overlap check over a whole region list. -/
def viewSorted (rs : List Region) : Bool :=
  ((rs.map Region.chrom).dedup).all fun c =>
    sortedNonOverlapping (rs.filter fun r => decide (r.chrom = c))

/-- Modelled from the spec: `read_viewframe` lives in `cooltools.lib.common`,
which is not part of this tree. Per the spec it parses the region file,
validates that each region falls within the bounds of its chromosome, and — when
the sorting check is requested, as this command requests it — fails with a
validation error when regions are unsorted or overlap; errors are reported,
never silently corrected. -/
def read_viewframe (regions : List Region) (clr : Cooler)
    (check_sorting : Bool) : Except CliError (List Region) :=
  if regions.all (regionInBounds clr) then
    if check_sorting && !viewSorted regions then
      .error (.viewValidation "view regions are unsorted or overlap")
    else .ok regions
  else .error (.viewValidation "view region out of chromosome bounds")

/-- View resolution (lines 166-171): the full-chromosome cooler view when no
region file is given, otherwise `read_viewframe(view, clr,
check_sorting=True)`. -/
def resolve_view_step (clr : Cooler) (viewOpt : Option (List Region)) :
    Except CliError (List Region) :=
  match viewOpt with
  | none => .ok (make_cooler_view clr)
  | some regions => read_viewframe regions clr true

/-- The command up to and including the construction of the
`eigdecomp.eigs_trans(...)` argument list: track step, then view resolution,
then the call arguments `bins=track, n_eigs=n_eigs,
clr_weight_name=clr_weight_name, partition=None,
phasing_track_col=track_name, sort_metric=None`. The resolved view is
returned alongside to record what line 171 produced; the call itself never
receives it. -/
def eigs_trans_args (clr : Cooler)
    (reference_track : Option (TrackInput × Col))
    (viewOpt : Option (List Region)) (n_eigs : Int)
    (clr_weight_name : String) :
    Except CliError (EigsTransArgs × List Region) :=
  match track_step clr reference_track with
  | .error e => .error e
  | .ok (bins, track_name) =>
    match resolve_view_step clr viewOpt with
    | .error e => .error e
    | .ok view_df =>
      .ok ({ bins := bins
             n_eigs := n_eigs
             clr_weight_name := clr_weight_name
             partition := none
             phasing_track_col := track_name
             sort_metric := none }, view_df)

/-- The whole command (function `eigs_trans`, lines 62-197): build the
decomposition arguments, run the decomposition (an abstract collaborator
`eigdecompFn` returning the eigenvalue table and the eigenvector table), and
write the two text outputs plus, when `bigwig` is set, the bigWig file with
`value_field="E1"`. An error anywhere earlier aborts with nothing written. -/
def eigs_trans {V T : Type} (eigdecompFn : EigsTransArgs → V × T)
    (clr : Cooler) (reference_track : Option (TrackInput × Col))
    (viewOpt : Option (List Region)) (n_eigs : Int)
    (clr_weight_name : String) (out_pref : String) (bigwig : Bool) :
    Except CliError (List (OutFile V T)) :=
  match eigs_trans_args clr reference_track viewOpt n_eigs clr_weight_name with
  | .error e => .error e
  | .ok (args, _view_df) =>
    let res := eigdecompFn args
    let eigvals := res.1
    let eigvec_table := res.2
    .ok ([.lam (out_pref ++ ".trans" ++ ".lam.txt") eigvals,
          .vecs (out_pref ++ ".trans" ++ ".vecs.tsv") eigvec_table] ++
      if bigwig then
        [.bigwig (out_pref ++ ".trans" ++ ".bw") eigvec_table "E1"]
      else [])

/-- The click default for `--n-eigs` (line 34). -/
def default_n_eigs : Int := 3

/-- The click default for `--clr-weight-name` (line 41). -/
def default_clr_weight_name : String := "weight"

/-- A raw invocation before click applies defaults: `none` marks an omitted
option. -/
structure CliInvocation where
  reference_track : Option (TrackInput × Col)
  view : Option (List Region)
  n_eigs : Option Int
  clr_weight_name : Option String
  out_pref : String
  bigwig : Option Bool

/-- Default resolution by click followed by the argument construction: each
omitted option is replaced by its declared default before the command body
runs. -/
def run_cli_args (clr : Cooler) (inv : CliInvocation) :
    Except CliError (EigsTransArgs × List Region) :=
  eigs_trans_args clr inv.reference_track inv.view
    (inv.n_eigs.getD default_n_eigs)
    (inv.clr_weight_name.getD default_clr_weight_name)

instance {ε α : Type} [DecidableEq ε] [DecidableEq α] :
    DecidableEq (Except ε α) := fun a b =>
  match a, b with
  | .error e, .error e₂ =>
    if h : e = e₂ then .isTrue (by rw [h]) else
      .isFalse (by intro hc; cases hc; exact h rfl)
  | .error _, .ok _ => .isFalse (by intro hc; cases hc)
  | .ok _, .error _ => .isFalse (by intro hc; cases hc)
  | .ok v, .ok v₂ =>
    if h : v = v₂ then .isTrue (by rw [h]) else
      .isFalse (by intro hc; cases hc; exact h rfl)

/-- The command fails with a `click.BadParameter` error. -/
def badParameterFailure {α : Type} : Except CliError α → Bool
  | .error (.badParameter _) => true
  | _ => false

/-- The command fails with a view validation error. -/
def viewValidationFailure {α : Type} : Except CliError α → Bool
  | .error (.viewValidation _) => true
  | _ => false

/-- The `bins` argument of the decomposition call, when it is reached. -/
def binsOf (r : Except CliError (EigsTransArgs × List Region)) :
    Option EigsBins :=
  r.toOption.map fun p => p.1.bins

/-- The `phasing_track_col` argument of the decomposition call, when it is
reached. -/
def phasingOf (r : Except CliError (EigsTransArgs × List Region)) :
    Option (Option String) :=
  r.toOption.map fun p => p.1.phasing_track_col

/-- The `sort_metric` argument of the decomposition call, when it is
reached. -/
def sortMetricOf (r : Except CliError (EigsTransArgs × List Region)) :
    Option (Option String) :=
  r.toOption.map fun p => p.1.sort_metric

/-- The `partition` argument of the decomposition call, when it is reached. -/
def partitionOf (r : Except CliError (EigsTransArgs × List Region)) :
    Option (Option Unit) :=
  r.toOption.map fun p => p.1.partition

/-- The `n_eigs` argument of the decomposition call, when it is reached. -/
def neigsOf (r : Except CliError (EigsTransArgs × List Region)) :
    Option Int :=
  r.toOption.map fun p => p.1.n_eigs

/-- The `clr_weight_name` argument of the decomposition call, when it is
reached. -/
def weightOf (r : Except CliError (EigsTransArgs × List Region)) :
    Option String :=
  r.toOption.map fun p => p.1.clr_weight_name

/-- A one-chromosome, one-bin cooler used as a concrete test fixture. -/
def clrC : Cooler := ⟨[("chr1", 20)], [⟨"chr1", 0, 10⟩]⟩

/-- A track file whose two rows both carry the coordinates of the single bin
of `clrC`: its left join onto the bin table grows the row count. -/
def dupTrack : TrackInput :=
  ⟨some ["chrom", "start", "end", "gc"],
   [⟨"chr1", 0, 10, 5⟩, ⟨"chr1", 0, 10, 7⟩]⟩

/-- A well-formed one-row track file matching the single bin of `clrC`. -/
def okTrack : TrackInput :=
  ⟨some ["chrom", "start", "end", "gc"], [⟨"chr1", 0, 10, 5⟩]⟩

/-- A decomposition stub used to instantiate the abstract collaborator in
concrete runs. -/
def natDecomp : EigsTransArgs → Nat × Nat := fun _ => (0, 0)

/-- The decomposition arguments the command builds from `clrC` and
`okTrack`. -/
def argsC : EigsTransArgs :=
  ⟨.withTrack [(⟨"chr1", 0, 10⟩, some 5)], 3, "weight", none, some "gc", none⟩

/-- The full-chromosome view of `clrC`. -/
def viewC : List Region := [⟨"chr1", 0, 20, "chr1"⟩]

/-- Two overlapping regions on one chromosome: an invalid view. -/
def badView : List Region := [⟨"chr1", 0, 12, "a"⟩, ⟨"chr1", 8, 20, "b"⟩]

/-- A headerless track file. -/
def noHeaderTrack : TrackInput := ⟨none, [⟨"chr1", 0, 10, 5⟩]⟩

/-- An invocation that omits every optional option. -/
def invC : CliInvocation := ⟨none, none, none, none, "out", none⟩


/-! ## Structural lemmas shared by the claim theorems -/

/-- Successful argument construction decomposes into a successful track step,
a successful view resolution, and the literal keyword arguments of the call:
`partition=None` and `sort_metric=None` are hard-coded. -/
theorem eigs_trans_args_ok {clr : Cooler}
    {rt : Option (TrackInput × Col)} {viewOpt : Option (List Region)}
    {n : Int} {w : String} {a : EigsTransArgs} {vd : List Region}
    (h : eigs_trans_args clr rt viewOpt n w = .ok (a, vd)) :
    ∃ bt tn, track_step clr rt = .ok (bt, tn) ∧
      resolve_view_step clr viewOpt = .ok vd ∧
      a = ⟨bt, n, w, none, tn, none⟩ := by
  unfold eigs_trans_args at h
  cases h₁ : track_step clr rt with
  | error e => rw [h₁] at h; exact absurd h (by simp)
  | ok p =>
    obtain ⟨bt, tn⟩ := p
    rw [h₁] at h
    cases h₂ : resolve_view_step clr viewOpt with
    | error e => rw [h₂] at h; exact absurd h (by simp)
    | ok vdf =>
      rw [h₂] at h
      simp only [Except.ok.injEq, Prod.mk.injEq] at h
      exact ⟨bt, tn, rfl, by rw [h.2], (h.1).symm⟩

/-- An error in the argument construction is the whole result of the command. -/
theorem eigs_trans_eq_error {V T : Type} (f : EigsTransArgs → V × T)
    (clr : Cooler) (rt : Option (TrackInput × Col))
    (viewOpt : Option (List Region)) (n : Int) (w : String)
    (pr : String) (bw : Bool) (e : CliError)
    (h : eigs_trans_args clr rt viewOpt n w = .error e) :
    eigs_trans f clr rt viewOpt n w pr bw = .error e := by
  unfold eigs_trans
  rw [h]

/-! ## Claim theorems -/

/-- C1: on a reference track whose left join onto the bin table produces more
rows (2) than the bin table has (1), the row-count check does produce the
`ValueError`, but the source never raises it: the command still succeeds and
writes both output tables, contradicting the claim that the invocation fails
with a reported error and writes nothing. -/
theorem eigs_trans_merge_growth_not_raised :
    (pd_merge_left clrC.bins dupTrack.rows).length = 2 ∧
    clrC.bins.length = 1 ∧
    track_merge_check clrC (pd_merge_left clrC.bins dupTrack.rows) =
      some mergeGrowthMsg ∧
    eigs_trans natDecomp clrC (some (dupTrack, Col.byName "gc")) none 3
        "weight" "out" false =
      .ok [.lam "out.trans.lam.txt" 0, .vecs "out.trans.vecs.tsv" 0] :=
  ⟨by decide, by decide, by decide, by decide⟩

/-- C2 counterexample: a run with a reference track supplied reaches the
decomposition call with `sort_metric = None`, not `correlation`. -/
theorem eigs_trans_track_sort_metric_is_none :
    sortMetricOf
        (eigs_trans_args clrC (some (okTrack, Col.byName "gc")) none 3
          "weight") =
      some none ∧
    (some (none : Option String)) ≠ some (some "correlation") := by
  decide

/-- C2 (amended): whether or not a reference track is supplied, the
decomposition call is always made with `sort_metric = None`. -/
theorem eigs_trans_sort_metric_always_none (clr : Cooler)
    (rt : Option (TrackInput × Col)) (viewOpt : Option (List Region))
    (n : Int) (w : String) (a : EigsTransArgs) (vd : List Region)
    (h : eigs_trans_args clr rt viewOpt n w = .ok (a, vd)) :
    a.sort_metric = none := by
  obtain ⟨bt, tn, -, -, rfl⟩ := eigs_trans_args_ok h
  rfl

/-- Witness for `eigs_trans_sort_metric_always_none` at a concrete run with a
reference track supplied. -/
theorem eigs_trans_sort_metric_always_none_witness :
    argsC.sort_metric = none :=
  eigs_trans_sort_metric_always_none clrC (some (okTrack, Col.byName "gc"))
    none 3 "weight" argsC viewC (by decide)

/-- C6: with no reference track, the decomposition call receives the bare `(chrom, start, end)` bin table and `phasing_track_col = None`. -/
theorem eigs_trans_no_track_bins_unchanged (clr : Cooler)
    (viewOpt : Option (List Region)) (n : Int) (w : String)
    (hv : (resolve_view_step clr viewOpt).isOk = true) :
    binsOf (eigs_trans_args clr none viewOpt n w) =
      some (EigsBins.noTrack clr.bins) ∧
    phasingOf (eigs_trans_args clr none viewOpt n w) = some none := by
  cases hrv : resolve_view_step clr viewOpt with
  | error e => rw [hrv] at hv; exact absurd hv (by simp [Except.isOk, Except.toBool])
  | ok vd =>
    have hargs : eigs_trans_args clr none viewOpt n w =
        .ok (⟨.noTrack clr.bins, n, w, none, none, none⟩, vd) := by
      unfold eigs_trans_args track_step
      rw [hrv]
    exact ⟨by rw [binsOf, hargs]; rfl, by rw [phasingOf, hargs]; rfl⟩

/-- Witness for `eigs_trans_no_track_bins_unchanged` at a concrete run. -/
theorem eigs_trans_no_track_bins_unchanged_witness :
    binsOf (eigs_trans_args clrC none none 3 "weight") =
      some (EigsBins.noTrack clrC.bins) ∧
    phasingOf (eigs_trans_args clrC none none 3 "weight") = some none :=
  eigs_trans_no_track_bins_unchanged clrC none 3 "weight" (by decide)

/-- C8: with no region file, every invocation — with or without a reference
track — resolves its view to `make_cooler_view`: one region per
chromosome-size entry, named by the chromosome, starting at 0 and ending at
the recorded chromosome length. The view resolution itself (first conjunct)
is independent of the track; the second conjunct follows the resolved view
through the command, whose track step must succeed for the view resolution
to be reached at all. -/
theorem eigs_trans_default_view_full_chromosomes (clr : Cooler)
    (rt : Option (TrackInput × Col)) (n : Int) (w : String)
    (ht : (track_step clr rt).isOk = true) :
    resolve_view_step clr none = .ok (make_cooler_view clr) ∧
    Except.map Prod.snd (eigs_trans_args clr rt none n w) =
      .ok (make_cooler_view clr) ∧
    (make_cooler_view clr).map
        (fun r => (r.chrom, r.start, r.«end», r.name)) =
      clr.chromsizes.map (fun p => (p.1, (0 : Int), p.2, p.1)) := by
  refine ⟨rfl, ?_, ?_⟩
  · cases h₁ : track_step clr rt with
    | error e =>
      rw [h₁] at ht
      exact absurd ht (by simp [Except.isOk, Except.toBool])
    | ok p =>
      obtain ⟨bt, tn⟩ := p
      simp only [eigs_trans_args, resolve_view_step, h₁]
      rfl
  · rw [make_cooler_view, List.map_map]; rfl

/-- Witness for `eigs_trans_default_view_full_chromosomes` at a concrete
invocation that does supply a reference track. -/
theorem eigs_trans_default_view_full_chromosomes_witness :
    resolve_view_step clrC none = .ok (make_cooler_view clrC) ∧
    Except.map Prod.snd
        (eigs_trans_args clrC (some (okTrack, Col.byName "gc")) none 3
          "weight") =
      .ok (make_cooler_view clrC) ∧
    (make_cooler_view clrC).map
        (fun r => (r.chrom, r.start, r.«end», r.name)) =
      clrC.chromsizes.map (fun p => (p.1, (0 : Int), p.2, p.1)) :=
  eigs_trans_default_view_full_chromosomes clrC
    (some (okTrack, Col.byName "gc")) 3 "weight" (by decide)

/-- C9: an invocation that reaches the decomposition writes exactly the
eigenvalue table and the eigenvector table under the output prefix, plus the
bigWig file with `value_field = "E1"` exactly when the flag is set. -/
theorem eigs_trans_writes_two_or_three_outputs {V T : Type}
    (f : EigsTransArgs → V × T) (clr : Cooler)
    (rt : Option (TrackInput × Col)) (viewOpt : Option (List Region))
    (n : Int) (w : String) (pr : String) (bw : Bool) (a : EigsTransArgs)
    (vd : List Region)
    (h : eigs_trans_args clr rt viewOpt n w = .ok (a, vd)) :
    eigs_trans f clr rt viewOpt n w pr bw =
      .ok ([OutFile.lam (pr ++ ".trans" ++ ".lam.txt") (f a).1,
            OutFile.vecs (pr ++ ".trans" ++ ".vecs.tsv") (f a).2] ++
        if bw then [OutFile.bigwig (pr ++ ".trans" ++ ".bw") (f a).2 "E1"]
        else []) := by
  unfold eigs_trans
  rw [h]

/-- Witness for `eigs_trans_writes_two_or_three_outputs` at a concrete run
with the bigWig flag set. -/
theorem eigs_trans_writes_two_or_three_outputs_witness :
    eigs_trans natDecomp clrC (some (okTrack, Col.byName "gc")) none 3
        "weight" "out" true =
      .ok ([OutFile.lam ("out" ++ ".trans" ++ ".lam.txt") (natDecomp argsC).1,
            OutFile.vecs ("out" ++ ".trans" ++ ".vecs.tsv")
              (natDecomp argsC).2] ++
        if true then
          [OutFile.bigwig ("out" ++ ".trans" ++ ".bw") (natDecomp argsC).2
            "E1"]
        else []) :=
  eigs_trans_writes_two_or_three_outputs natDecomp clrC
    (some (okTrack, Col.byName "gc")) none 3 "weight" "out" true argsC viewC
    (by decide)

/-- C10: when `--n-eigs` and `--clr-weight-name` are omitted, the resolved
defaults 3 and "weight" are exactly what the decomposition call receives. -/
theorem run_cli_defaults_passed (clr : Cooler) (inv : CliInvocation)
    (hn : inv.n_eigs = none) (hw : inv.clr_weight_name = none)
    (hok : (run_cli_args clr inv).isOk = true) :
    neigsOf (run_cli_args clr inv) = some 3 ∧
    weightOf (run_cli_args clr inv) = some "weight" := by
  simp only [run_cli_args, hn, hw, Option.getD_none] at hok ⊢
  cases hres : eigs_trans_args clr inv.reference_track inv.view
      default_n_eigs default_clr_weight_name with
  | error e =>
    rw [hres] at hok
    exact absurd hok (by simp [Except.isOk, Except.toBool])
  | ok p =>
    obtain ⟨a, vd⟩ := p
    obtain ⟨bt, tn, -, -, rfl⟩ := eigs_trans_args_ok hres
    exact ⟨rfl, rfl⟩

/-- Witness for `run_cli_defaults_passed` at a concrete invocation omitting
every optional option. -/
theorem run_cli_defaults_passed_witness :
    neigsOf (run_cli_args clrC invC) = some 3 ∧
    weightOf (run_cli_args clrC invC) = some "weight" :=
  run_cli_defaults_passed clrC invC rfl rfl (by decide)

/-- C3: a region file that passes validation leaves the result of the command
exactly equal to the result with no region file at all — the resolved view is
dropped and the decomposition call never receives a partition (its
`partition` argument is never `Some`). -/
theorem eigs_trans_view_no_influence {V T : Type} (f : EigsTransArgs → V × T)
    (clr : Cooler) (rt : Option (TrackInput × Col)) (regions : List Region)
    (n : Int) (w : String) (pr : String) (bw : Bool)
    (hok : (read_viewframe regions clr true).isOk = true) :
    eigs_trans f clr rt (some regions) n w pr bw =
      eigs_trans f clr rt none n w pr bw ∧
    partitionOf (eigs_trans_args clr rt (some regions) n w) ≠
      some (some ()) := by
  cases hrv : read_viewframe regions clr true with
  | error e =>
    rw [hrv] at hok
    exact absurd hok (by simp [Except.isOk, Except.toBool])
  | ok v =>
    constructor
    · cases h₁ : track_step clr rt with
      | error e => simp only [eigs_trans, eigs_trans_args, h₁]
      | ok p =>
        obtain ⟨bt, tn⟩ := p
        simp only [eigs_trans, eigs_trans_args, resolve_view_step, h₁, hrv]
    · cases h₁ : track_step clr rt with
      | error e =>
        simp only [partitionOf, eigs_trans_args, h₁]
        simp [Except.toOption]
      | ok p =>
        obtain ⟨bt, tn⟩ := p
        simp only [partitionOf, eigs_trans_args, resolve_view_step, h₁, hrv]
        simp [Except.toOption]

/-- Witness for `eigs_trans_view_no_influence` at a concrete valid view. -/
theorem eigs_trans_view_no_influence_witness :
    (eigs_trans natDecomp clrC none (some viewC) 3 "weight" "out" false =
      eigs_trans natDecomp clrC none none 3 "weight" "out" false) ∧
    partitionOf (eigs_trans_args clrC none (some viewC) 3 "weight") ≠
      some (some ()) :=
  eigs_trans_view_no_influence natDecomp clrC none viewC 3 "weight" "out"
    false (by decide)

/-- A region list that fails the per-chromosome sorted/non-overlap check makes
`read_viewframe` report a validation error. -/
theorem read_viewframe_unsorted_error (regions : List Region) (clr : Cooler)
    (hbad : viewSorted regions = false) :
    ∃ msg, read_viewframe regions clr true = .error (.viewValidation msg) := by
  unfold read_viewframe
  cases hb : regions.all (regionInBounds clr) with
  | false => simp
  | true => simp [hbad]

/-- C4: a region file with unsorted or overlapping regions on a chromosome
makes the invocation fail with a view validation error; the decomposition
collaborator `f` is arbitrary and unused, so the failure happens before any
matrix construction or decomposition, and the error result carries no output
files. -/
theorem eigs_trans_unsorted_view_fails_fast {V T : Type}
    (f : EigsTransArgs → V × T) (clr : Cooler)
    (rt : Option (TrackInput × Col)) (regions : List Region) (n : Int)
    (w : String) (pr : String) (bw : Bool)
    (htrack : (track_step clr rt).isOk = true)
    (hbad : viewSorted regions = false) :
    viewValidationFailure
      (eigs_trans f clr rt (some regions) n w pr bw) = true := by
  obtain ⟨msg, hrv⟩ := read_viewframe_unsorted_error regions clr hbad
  cases h₁ : track_step clr rt with
  | error e =>
    rw [h₁] at htrack
    exact absurd htrack (by simp [Except.isOk, Except.toBool])
  | ok p =>
    obtain ⟨bt, tn⟩ := p
    have hargs : eigs_trans_args clr rt (some regions) n w =
        .error (.viewValidation msg) := by
      simp only [eigs_trans_args, resolve_view_step, h₁, hrv]
    rw [eigs_trans_eq_error f clr rt (some regions) n w pr bw _ hargs]
    rfl

/-- Witness for `eigs_trans_unsorted_view_fails_fast` at two concrete
overlapping regions. -/
theorem eigs_trans_unsorted_view_fails_fast_witness :
    viewValidationFailure
      (eigs_trans natDecomp clrC none (some badView) 3 "weight" "out"
        false) = true :=
  eigs_trans_unsorted_view_fails_fast natDecomp clrC none badView 3 "weight"
    "out" false (by decide) (by decide)

/-- C5: every invalid reference-track column specification — a name for a
headerless file, an index past the end of the header, or a name absent from
the header — makes the invocation fail with a `click.BadParameter` error; the
decomposition collaborator `f` is arbitrary and unused, so the failure
happens before any matrix work, and the error result carries no output
files. -/
theorem eigs_trans_bad_column_fails_fast {V T : Type}
    (f : EigsTransArgs → V × T) (clr : Cooler) (tf : TrackInput) (col : Col)
    (viewOpt : Option (List Region)) (n : Int) (w : String) (pr : String)
    (bw : Bool)
    (hbad : (tf.names = none ∧ ∃ s, col = Col.byName s) ∨
      (∃ ns i, tf.names = some ns ∧ col = Col.byIndex i ∧ ns.length ≤ i) ∨
      (∃ ns s, tf.names = some ns ∧ col = Col.byName s ∧ s ∉ ns)) :
    badParameterFailure
      (eigs_trans f clr (some (tf, col)) viewOpt n w pr bw) = true := by
  have hres : ∃ msg, resolve_track_name tf.names col =
      .error (.badParameter msg) := by
    rcases hbad with ⟨hn, s, hc⟩ | ⟨ns, i, hn, hc, hlen⟩ |
      ⟨ns, s, hn, hc, hmem⟩
    · rw [hn, hc]; exact ⟨_, rfl⟩
    · rw [hn, hc]
      simp only [resolve_track_name]
      rw [List.getElem?_eq_none hlen]
      exact ⟨_, rfl⟩
    · rw [hn, hc]
      simp only [resolve_track_name]
      rw [if_neg hmem]
      exact ⟨_, rfl⟩
  obtain ⟨msg, hres⟩ := hres
  have hargs : eigs_trans_args clr (some (tf, col)) viewOpt n w =
      .error (.badParameter msg) := by
    simp only [eigs_trans_args, track_step, hres]
  rw [eigs_trans_eq_error f clr (some (tf, col)) viewOpt n w pr bw _ hargs]
  rfl

/-- Witness for `eigs_trans_bad_column_fails_fast` at a concrete headerless
file given a column name. -/
theorem eigs_trans_bad_column_fails_fast_witness :
    badParameterFailure
      (eigs_trans natDecomp clrC (some (noHeaderTrack, Col.byName "gc"))
        none 3 "weight" "out" false) = true :=
  eigs_trans_bad_column_fails_fast natDecomp clrC noHeaderTrack
    (Col.byName "gc") none 3 "weight" "out" false (Or.inl ⟨rfl, "gc", rfl⟩)

/-- Under pairwise-distinct track keys, filtering the track by one key gives
exactly the rows delivered by `find?`: none or a single one. -/
theorem filter_key_nodup (track : List TrackRow) (k : String × Int × Int)
    (hu : (track.map trackKey).Nodup) :
    track.filter (fun t => decide (trackKey t = k)) =
      (track.find? fun t => decide (trackKey t = k)).toList := by
  induction track with
  | nil => rfl
  | cons t ts ih =>
    rw [List.map_cons, List.nodup_cons] at hu
    by_cases hk : trackKey t = k
    · rw [List.filter_cons_of_pos (by simp [hk]),
        List.find?_cons_of_pos _ (by simp [hk])]
      have hnil : ts.filter (fun t => decide (trackKey t = k)) = [] := by
        apply List.filter_eq_nil_iff.mpr
        intro t₂ ht₂
        simp only [decide_eq_true_eq]
        intro hc
        exact hu.1 (by rw [hk, ← hc]; exact List.mem_map_of_mem trackKey ht₂)
      rw [hnil]
      rfl
    · rw [List.filter_cons_of_neg (by simp [hk]),
        List.find?_cons_of_neg _ (by simp [hk])]
      exact ih hu.2

/-- C7: for a track with pairwise-distinct `(chrom, start, end)` keys, the
left join onto the bin table is exact: the merged table is the bin table in
its original order, each bin paired with `find?` of its key over the track —
`none` (a missing value, distinct from any numeric value) exactly when no
track row matches — so row count and order are preserved. -/
theorem pd_merge_left_exact_join (bins : List Bin) (track : List TrackRow)
    (hu : (track.map trackKey).Nodup) :
    pd_merge_left bins track =
      bins.map (fun b => (b, (track.find? fun t =>
        decide (trackKey t = binKey b)).map TrackRow.value)) ∧
    (pd_merge_left bins track).map Prod.fst = bins ∧
    (pd_merge_left bins track).length = bins.length := by
  have hmain : pd_merge_left bins track =
      bins.map (fun b => (b, (track.find? fun t =>
        decide (trackKey t = binKey b)).map TrackRow.value)) := by
    induction bins with
    | nil => rfl
    | cons b bs ih =>
      have hfk := filter_key_nodup track (binKey b) hu
      unfold pd_merge_left at ih ⊢
      rw [List.flatMap_cons, ih, List.map_cons]
      cases hf : track.find? fun t => decide (trackKey t = binKey b) with
      | none =>
        rw [hf] at hfk
        rw [hfk]
        rfl
      | some t =>
        rw [hf] at hfk
        rw [hfk]
        rfl
  refine ⟨hmain, ?_, ?_⟩
  · rw [hmain, List.map_map]
    exact List.map_id bins
  · rw [hmain, List.length_map]

/-- Witness for `pd_merge_left_exact_join` at a concrete one-row track. -/
theorem pd_merge_left_exact_join_witness :
    pd_merge_left clrC.bins okTrack.rows =
      clrC.bins.map (fun b => (b, (okTrack.rows.find? fun t =>
        decide (trackKey t = binKey b)).map TrackRow.value)) ∧
    (pd_merge_left clrC.bins okTrack.rows).map Prod.fst = clrC.bins ∧
    (pd_merge_left clrC.bins okTrack.rows).length = clrC.bins.length :=
  pd_merge_left_exact_join clrC.bins okTrack.rows (by decide)
